import Mathlib

/-!
Verification development for the image-canvas-player repository
(src/src/App.tsx). The definitions below are a shallow embedding of the
component's state, its event handlers and its two helper mapping functions;
the theorems settle the specification's testable properties against them.
-/

/-- An uploaded file as seen by `handleImageUpload` in App.tsx: its name
(used to derive the object URL) and whether the browser succeeds in decoding
it, i.e. whether the `img.onload` callback ever fires for it. -/
structure ImageFile where
  name : String
  decodesOk : Bool
deriving DecidableEq

/-- Model of `URL.createObjectURL(file)`: a deterministic blob tag derived
from the file name. -/
def createObjectURL (f : ImageFile) : String := "blob:" ++ f.name

/-- Model of the `HTMLImageElement` allocated per file (`new Image()`
followed by `img.src = url`). -/
structure HTMLImageElement where
  src : String
deriving DecidableEq

/-- App.tsx: `type ImageEntry = { url: string; img: HTMLImageElement }`. -/
structure ImageEntry where
  url : String
  img : HTMLImageElement
deriving DecidableEq

/-- The entry pushed onto `newEntries` for one file in `handleImageUpload`:
`const url = URL.createObjectURL(file); const img = new Image(); img.src = url;
newEntries.push({ url, img })`. -/
def createEntry (f : ImageFile) : ImageEntry :=
  { url := createObjectURL f, img := { src := createObjectURL f } }

/-- The React state owned by the `App` component: `images`, `currentIndex`,
`isPlaying` and the four slider values (each a range input in 0..100). -/
structure PlayerState where
  images : List ImageEntry
  currentIndex : Nat
  isPlaying : Bool
  speed : Nat
  delay : Nat
  shade : Nat
  volume : Nat
deriving DecidableEq

/-- The component's initial state: `useState<ImageEntry[]>([])`,
`useState(0)`, `useState(false)`, `useState(60)`, `useState(40)`,
`useState(20)`, `useState(50)`. -/
def initialState : PlayerState :=
  { images := [], currentIndex := 0, isPlaying := false,
    speed := 60, delay := 40, shade := 20, volume := 50 }

/-- The single state commit performed when the last file of a batch has
decoded: `setImages((prev) => [...prev, ...newEntries]); if (!isPlaying)
setIsPlaying(true)`. -/
def commitBatch (newEntries : List ImageEntry) (s : PlayerState) : PlayerState :=
  { s with images := s.images ++ newEntries,
           isPlaying := if s.isPlaying then s.isPlaying else true }

/-- One `img.onload` callback of `handleImageUpload`: `loadedCount += 1;
if (loadedCount === files.length) { commit }`. The state threads the pair
(loadedCount, player state). -/
def uploadOnload (batchSize : Nat) (newEntries : List ImageEntry)
    (st : Nat × PlayerState) : Nat × PlayerState :=
  if st.1 + 1 = batchSize then (st.1 + 1, commitBatch newEntries st.2)
  else (st.1 + 1, st.2)

/-- Running `k` of the batch's `onload` callbacks in sequence (one fires per
file that decodes successfully; the counter logic is order independent). -/
def runOnloads (batchSize : Nat) (newEntries : List ImageEntry) :
    Nat → Nat × PlayerState → Nat × PlayerState
  | 0, st => st
  | k + 1, st => runOnloads batchSize newEntries k (uploadOnload batchSize newEntries st)

/-- App.tsx `handleImageUpload`: `none` models an absent `event.target.files`;
the guard `if (!files || files.length === 0) return` is the first two cases.
Otherwise one entry is built per file, and exactly the files that decode
successfully fire their `onload` callback, each incrementing `loadedCount`. -/
def handleImageUpload (files? : Option (List ImageFile)) (s : PlayerState) :
    PlayerState :=
  match files? with
  | none => s
  | some files =>
    if files.length = 0 then s
    else
      (runOnloads files.length (files.map createEntry)
        ((files.filter (fun f => f.decodesOk)).length) (0, s)).2

/-- The object URLs created by one invocation of `handleImageUpload`:
`URL.createObjectURL` runs once per file, before any decode completes, and
not at all when the guard returns early. -/
def uploadCreatedUrls (files? : Option (List ImageFile)) : List String :=
  match files? with
  | none => []
  | some files => if files.length = 0 then [] else files.map createObjectURL

/-- The `newEntries` array built by one invocation of `handleImageUpload`
(empty when the early-return guard fires). -/
def uploadNewEntries (files? : Option (List ImageFile)) : List ImageEntry :=
  match files? with
  | none => []
  | some files => if files.length = 0 then [] else files.map createEntry

/-- The reroll loop of the advance-timer updater:
`let next = prev; while (next === prev) next = Math.floor(Math.random() *
images.length); return next`. The list holds the successive values of
`Math.floor(Math.random() * images.length)`; `none` means the loop has not
terminated within the supplied draws. -/
def rerollLoop (prev : Nat) : List Nat → Option Nat
  | [] => none
  | d :: ds => if d = prev then rerollLoop prev ds else some d

/-- The full `setCurrentIndex` updater of the advance timer:
`if (images.length <= 1) return prev;` then the reroll loop. -/
def advanceUpdater (len prev : Nat) (draws : List Nat) : Option Nat :=
  if len ≤ 1 then some prev else rerollLoop prev draws

/-- The guard of the advance-timer effect: `if (!isPlaying || images.length
<= 1) return;` — a timeout is scheduled exactly when this returns true. -/
def advanceTimerScheduled (isPlaying : Bool) (len : Nat) : Bool :=
  isPlaying && decide (1 < len)

/-- App.tsx `mapSpeedToDuration`: speed 0..100 to duration 4000..600 ms. -/
def mapSpeedToDuration (speed : ℚ) : ℚ :=
  let min : ℚ := 600
  let max : ℚ := 4000
  max - (speed / 100) * (max - min)

/-- App.tsx `mapDelayToMs`: delay 0..100 to 500..6000 ms between images. -/
def mapDelayToMs (delay : ℚ) : ℚ :=
  let min : ℚ := 500
  let max : ℚ := 6000
  min + (delay / 100) * (max - min)

/-- Modelled from the spec: the duration formula of section 4.5,
`duration_ms = 4000 − (speed/100)×(4000−600)`, stated for comparison with
the source's `mapSpeedToDuration`. -/
def specDurationFormula (speed : ℚ) : ℚ :=
  4000 - (speed / 100) * (4000 - 600)

/-- Modelled from the spec: the delay formula of section 4.6,
`delay_ms = 500 + (delay/100)×(6000−500)`, stated for comparison with the
source's `mapDelayToMs`. -/
def specDelayFormula (delay : ℚ) : ℚ :=
  500 + (delay / 100) * (6000 - 500)

/-- The shade-overlay branch of the per-frame render:
`if (shade > 0) { const shadeAlpha = (shade / 100) * 0.65; ... fillRect }`.
Returns the alpha of the drawn overlay, or `none` when no overlay is drawn. -/
def shadeOverlayAlpha (shade : ℚ) : Option ℚ :=
  if shade > 0 then some ((shade / 100) * (65 / 100)) else none

/-- The effective darkening applied by the shade branch: the drawn overlay's
alpha, or 0 when the branch is skipped. -/
def effectiveShadeAlpha (shade : ℚ) : ℚ :=
  (shadeOverlayAlpha shade).getD 0

/-- The UI events that mutate `PlayerState`: image upload (with its optional
file list), the advance-timer callback firing (with the random draws the
reroll loop consumes), the Play/Pause button, and the four sliders. -/
inductive Event where
  | uploadImages : Option (List ImageFile) → Event
  | advanceTimer : List Nat → Event
  | togglePlay : Event
  | setSpeed : Nat → Event
  | setDelay : Nat → Event
  | setShade : Nat → Event
  | setVolume : Nat → Event
deriving DecidableEq

/-- The component's state-update function, one case per event handler in
App.tsx. The advance-timer case includes the effect's scheduling guard and
the updater; `none` from the updater models a reroll loop that has not yet
terminated, in which case no state update is observed. The Play/Pause button
is disabled while `images.length === 0`. -/
def step (e : Event) (s : PlayerState) : PlayerState :=
  match e with
  | .uploadImages files? => handleImageUpload files? s
  | .advanceTimer draws =>
    if advanceTimerScheduled s.isPlaying s.images.length then
      match advanceUpdater s.images.length s.currentIndex draws with
      | some next => { s with currentIndex := next }
      | none => s
    else s
  | .togglePlay =>
    if s.images.length = 0 then s else { s with isPlaying := !s.isPlaying }
  | .setSpeed v => { s with speed := v }
  | .setDelay v => { s with delay := v }
  | .setShade v => { s with shade := v }
  | .setVolume v => { s with volume := v }

/-- The index invariant: `currentIndex` is 0 while the list is empty, and a
valid position once the list is non-empty. -/
def playerInv (s : PlayerState) : Prop :=
  s.currentIndex < max 1 s.images.length

/-- Environment validity of an event: the advance timer's draws are values
of `Math.floor(Math.random() * images.length)`, hence below the list
length. -/
def eventValid (e : Event) (s : PlayerState) : Prop :=
  match e with
  | .advanceTimer draws => ∀ d ∈ draws, d < s.images.length
  | _ => True

-- ------------------------------------------------------------------
-- Helper lemmas
-- ------------------------------------------------------------------

/-- Characterisation of a run of onload callbacks: the counter advances by
`k`, and the commit happens exactly when the counter crosses the batch size
during the run. -/
theorem runOnloads_char (B : Nat) (es : List ImageEntry) :
    ∀ (k lc : Nat) (s : PlayerState),
      runOnloads B es k (lc, s)
        = (lc + k, if lc < B ∧ B ≤ lc + k then commitBatch es s else s) := by
  intro k
  induction k with
  | zero =>
    intro lc s
    show (lc, s) = _
    rw [if_neg (by omega : ¬ (lc < B ∧ B ≤ lc + 0))]
    exact rfl
  | succ k ih =>
    intro lc s
    show runOnloads B es k (uploadOnload B es (lc, s)) = _
    have hadd : lc + 1 + k = lc + (k + 1) := by omega
    by_cases h : lc + 1 = B
    · have h1 : uploadOnload B es (lc, s) = (lc + 1, commitBatch es s) := by
        simp [uploadOnload, h]
      rw [h1, ih]
      have h2 : ¬ (lc + 1 < B ∧ B ≤ lc + 1 + k) := by omega
      have h3 : lc < B ∧ B ≤ lc + (k + 1) := by omega
      rw [if_neg h2, if_pos h3, hadd]
    · have h1 : uploadOnload B es (lc, s) = (lc + 1, s) := by
        simp [uploadOnload, h]
      rw [h1, ih]
      by_cases h3 : lc < B ∧ B ≤ lc + (k + 1)
      · have h2 : lc + 1 < B ∧ B ≤ lc + 1 + k := by omega
        rw [if_pos h2, if_pos h3, hadd]
      · have h2 : ¬ (lc + 1 < B ∧ B ≤ lc + 1 + k) := by omega
        rw [if_neg h2, if_neg h3, hadd]

/-- The filtered list of successfully decoding files is no longer than the
batch. -/
theorem filter_ok_length_le (p : ImageFile → Bool) :
    ∀ files : List ImageFile, (files.filter p).length ≤ files.length := by
  intro files
  induction files with
  | nil => simp
  | cons f fs ih =>
    by_cases h : p f = true
    · simp only [List.filter_cons, if_pos h, List.length_cons]
      omega
    · simp only [List.filter_cons, if_neg h, List.length_cons]
      omega

/-- When every file decodes, the ok-filter keeps the whole batch. -/
theorem filter_ok_all (p : ImageFile → Bool) :
    ∀ files : List ImageFile, (∀ f ∈ files, p f = true) →
      files.filter p = files := by
  intro files
  induction files with
  | nil => intro _; rfl
  | cons f fs ih =>
    intro h
    have hf : p f = true := h f (by simp)
    rw [List.filter_cons, if_pos hf, ih (fun g hg => h g (by simp [hg]))]

/-- When some file fails to decode, the ok-filter is strictly shorter than
the batch. -/
theorem filter_ok_lt (p : ImageFile → Bool) :
    ∀ files : List ImageFile, (∃ f ∈ files, p f = false) →
      (files.filter p).length < files.length := by
  intro files
  induction files with
  | nil => intro h; simp at h
  | cons f fs ih =>
    intro h
    rcases h with ⟨g, hg, hgp⟩
    rcases List.mem_cons.mp hg with hgf | hgfs
    · subst hgf
      have hf : ¬ (p g = true) := by simp [hgp]
      rw [List.filter_cons, if_neg hf]
      have := filter_ok_length_le p fs
      simp only [List.length_cons]
      omega
    · by_cases hf : p f = true
      · rw [List.filter_cons, if_pos hf]
        have := ih ⟨g, hgfs, hgp⟩
        simp only [List.length_cons]
        omega
      · rw [List.filter_cons, if_neg hf]
        have := filter_ok_length_le p fs
        simp only [List.length_cons]
        omega

/-- Closed form of `handleImageUpload` on a non-empty selection: the batch
commits exactly when every file decodes; otherwise the state is unchanged. -/
theorem handleImageUpload_some (files : List ImageFile) (s : PlayerState)
    (h : files ≠ []) :
    handleImageUpload (some files) s
      = if (files.filter (fun f => f.decodesOk)).length = files.length
        then commitBatch (files.map createEntry) s
        else s := by
  have hlen : files.length ≠ 0 := by
    intro hl
    exact h (List.eq_nil_of_length_eq_zero hl)
  have hle := filter_ok_length_le (fun f => f.decodesOk) files
  show (if files.length = 0 then s
      else (runOnloads files.length (files.map createEntry)
        ((files.filter (fun f => f.decodesOk)).length) (0, s)).2) = _
  rw [if_neg hlen, runOnloads_char]
  by_cases hall :
      (files.filter (fun f => f.decodesOk)).length = files.length
  · have hc : 0 < files.length ∧
        files.length ≤ 0 + (files.filter (fun f => f.decodesOk)).length := by
      omega
    rw [if_pos hc, if_pos hall]
  · have hc : ¬ (0 < files.length ∧
        files.length ≤ 0 + (files.filter (fun f => f.decodesOk)).length) := by
      omega
    rw [if_neg hc, if_neg hall]

/-- An upload either leaves the state unchanged or commits a batch. -/
theorem handleImageUpload_cases (files? : Option (List ImageFile))
    (s : PlayerState) :
    handleImageUpload files? s = s
    ∨ ∃ es, handleImageUpload files? s = commitBatch es s := by
  match files? with
  | none => exact Or.inl rfl
  | some files =>
    by_cases h : files.length = 0
    · left
      show (if files.length = 0 then s else _) = s
      rw [if_pos h]
    · have hne : files ≠ [] := by
        intro hl
        exact h (by simp [hl])
      rw [handleImageUpload_some files s hne]
      by_cases hall :
          (files.filter (fun f => f.decodesOk)).length = files.length
      · right
        exact ⟨files.map createEntry, by rw [if_pos hall]⟩
      · left
        rw [if_neg hall]

/-- The reroll loop only ever returns a drawn value different from `prev`. -/
theorem rerollLoop_eq_some (prev : Nat) :
    ∀ (draws : List Nat) (next : Nat),
      rerollLoop prev draws = some next → next ∈ draws ∧ next ≠ prev := by
  intro draws
  induction draws with
  | nil => intro next h; simp [rerollLoop] at h
  | cons d ds ih =>
    intro next h
    by_cases hd : d = prev
    · rw [show rerollLoop prev (d :: ds) = rerollLoop prev ds from by
        simp [rerollLoop, hd]] at h
      rcases ih next h with ⟨hmem, hne⟩
      exact ⟨by simp [hmem], hne⟩
    · rw [show rerollLoop prev (d :: ds) = some d from by
        simp [rerollLoop, hd]] at h
      cases h
      exact ⟨by simp, hd⟩

/-- The reroll loop terminates as soon as some draw differs from `prev`. -/
theorem rerollLoop_isSome (prev : Nat) :
    ∀ draws : List Nat, (∃ d ∈ draws, d ≠ prev) →
      (rerollLoop prev draws).isSome = true := by
  intro draws
  induction draws with
  | nil => intro h; simp at h
  | cons d ds ih =>
    intro h
    by_cases hd : d = prev
    · rcases h with ⟨x, hx, hxp⟩
      rcases List.mem_cons.mp hx with hxd | hxds
      · subst hxd
        exact absurd hd hxp
      · rw [show rerollLoop prev (d :: ds) = rerollLoop prev ds from by
          simp [rerollLoop, hd]]
        exact ih ⟨x, hxds, hxp⟩
    · rw [show rerollLoop prev (d :: ds) = some d from by
        simp [rerollLoop, hd]]
      rfl

/-- With every draw equal to `prev` the reroll loop never terminates. -/
theorem rerollLoop_eq_none (prev : Nat) :
    ∀ draws : List Nat, (∀ d ∈ draws, d = prev) →
      rerollLoop prev draws = none := by
  intro draws
  induction draws with
  | nil => intro _; rfl
  | cons d ds ih =>
    intro h
    have hd : d = prev := h d (by simp)
    rw [show rerollLoop prev (d :: ds) = rerollLoop prev ds from by
      simp [rerollLoop, hd]]
    exact ih (fun x hx => h x (by simp [hx]))

/-- Any upload leaves `currentIndex` unchanged and can only grow the list. -/
theorem handleImageUpload_currentIndex (files? : Option (List ImageFile))
    (s : PlayerState) :
    (handleImageUpload files? s).currentIndex = s.currentIndex
    ∧ s.images.length ≤ (handleImageUpload files? s).images.length := by
  rcases handleImageUpload_cases files? s with h | ⟨es, h⟩
  · rw [h]
    exact ⟨rfl, Nat.le_refl _⟩
  · rw [h]
    refine ⟨rfl, ?_⟩
    show s.images.length ≤ (s.images ++ es).length
    rw [List.length_append]
    omega

-- ------------------------------------------------------------------
-- Claim theorems
-- ------------------------------------------------------------------

/-- C1: for a batch of files that all decode successfully, uploaded while
the image list is empty, the visible list is still empty after each of the
first N−1 onload events and becomes the full batch of length N at the Nth:
it changes from empty to length N in exactly one state update, no list of
length strictly between 0 and N is ever observable, and entries are
appended only after every file of the batch has finished decoding. -/
theorem upload_batch_atomic (files : List ImageFile) (s : PlayerState)
    (hempty : s.images = []) (hne : files ≠ [])
    (hok : ∀ f ∈ files, f.decodesOk = true) :
    (∀ k, k < files.length →
      ((runOnloads files.length (files.map createEntry) k (0, s)).2).images
        = [])
    ∧ ((runOnloads files.length (files.map createEntry) files.length
        (0, s)).2).images = files.map createEntry
    ∧ handleImageUpload (some files) s
        = commitBatch (files.map createEntry) s
    ∧ (handleImageUpload (some files) s).images.length = files.length := by
  have hN : 0 < files.length := List.length_pos.mpr hne
  have hall : (files.filter (fun f => f.decodesOk)).length = files.length := by
    rw [filter_ok_all _ files hok]
  refine ⟨?_, ?_, ?_, ?_⟩
  · intro k hk
    rw [runOnloads_char,
      if_neg (by omega : ¬ (0 < files.length ∧ files.length ≤ 0 + k))]
    exact hempty
  · rw [runOnloads_char,
      if_pos (by omega : 0 < files.length ∧
        files.length ≤ 0 + files.length)]
    show (s.images ++ files.map createEntry) = files.map createEntry
    rw [hempty]
    rfl
  · rw [handleImageUpload_some files s hne, if_pos hall]
  · rw [handleImageUpload_some files s hne, if_pos hall]
    show (s.images ++ files.map createEntry).length = files.length
    rw [hempty]
    simp

/-- Witness for `upload_batch_atomic` at a concrete two-file batch. -/
theorem upload_batch_atomic_witness :
    ((runOnloads 2 (List.map createEntry [⟨"a", true⟩, ⟨"b", true⟩]) 1
      (0, initialState)).2).images = []
    ∧ (handleImageUpload (some [⟨"a", true⟩, ⟨"b", true⟩])
        initialState).images.length = 2 := by
  have h := upload_batch_atomic [⟨"a", true⟩, ⟨"b", true⟩] initialState rfl
    (by decide) (by decide)
  exact ⟨h.1 1 (by decide), h.2.2.2⟩

/-- C2: for lists of length at least 2 and a current index in range, the
advance updater only ever returns an in-range index different from the
current one, and it does return one as soon as some draw differs from the
current index. -/
theorem advance_selects_fresh_index (len prev : Nat) (draws : List Nat)
    (hlen : 2 ≤ len) (_hprev : prev < len)
    (hdraws : ∀ d ∈ draws, d < len) :
    (∀ next, advanceUpdater len prev draws = some next →
      next < len ∧ next ≠ prev)
    ∧ ((∃ d ∈ draws, d ≠ prev) →
      (advanceUpdater len prev draws).isSome = true) := by
  have hg : ¬ (len ≤ 1) := by omega
  constructor
  · intro next h
    rw [show advanceUpdater len prev draws = rerollLoop prev draws from by
      simp [advanceUpdater, hg]] at h
    rcases rerollLoop_eq_some prev draws next h with ⟨hmem, hne⟩
    exact ⟨hdraws next hmem, hne⟩
  · intro h
    rw [show advanceUpdater len prev draws = rerollLoop prev draws from by
      simp [advanceUpdater, hg]]
    exact rerollLoop_isSome prev draws h

/-- Witness for `advance_selects_fresh_index` with two images, current
index 0 and draws 0 then 1. -/
theorem advance_selects_fresh_index_witness :
    (1 < 2 ∧ 1 ≠ 0) ∧ (advanceUpdater 2 0 [0, 1]).isSome = true := by
  have h := advance_selects_fresh_index 2 0 [0, 1] (by decide) (by decide)
    (by decide)
  exact ⟨h.1 1 (by decide), h.2 ⟨1, by decide, by decide⟩⟩

/-- C3 counterexample: with exactly one image the advance path terminates —
the updater's own guard (`if (images.length <= 1) return prev`) returns the
current index at once, the timer effect is not even scheduled
(`if (!isPlaying || images.length <= 1) return`), and a fired advance event
on a one-image state leaves the state unchanged — contradicting the claim
that the advance path fails to terminate for one-entry lists. -/
theorem single_image_advance_terminates_cex :
    advanceUpdater 1 0 [0, 0, 0] = some 0
    ∧ advanceTimerScheduled true 1 = false
    ∧ step (Event.advanceTimer [0, 0, 0])
        { initialState with
          images := [createEntry ⟨"a", true⟩]
          isPlaying := true }
      = { initialState with
          images := [createEntry ⟨"a", true⟩]
          isPlaying := true } := by
  refine ⟨rfl, rfl, rfl⟩

/-- C3 amended: for a one-entry image list the advance path terminates
immediately: the timer effect never schedules, and the updater's guard
returns the current index without entering the reroll loop. Only the bare
reroll loop, were it ever entered with a single image, would run forever
(every draw below 1 equals the current index 0), but it is unreachable, so
the spec's no-hang requirement holds of the source by skip-advancing. -/
theorem single_image_advance_guarded (prev : Nat) (p : Bool)
    (draws : List Nat) (hdraws : ∀ d ∈ draws, d < 1) :
    advanceUpdater 1 prev draws = some prev
    ∧ advanceTimerScheduled p 1 = false
    ∧ rerollLoop 0 draws = none := by
  refine ⟨rfl, ?_, ?_⟩
  · cases p <;> rfl
  · exact rerollLoop_eq_none 0 draws (fun d hd => by
      have := hdraws d hd
      omega)

/-- Witness for `single_image_advance_guarded` at index 0 with one draw. -/
theorem single_image_advance_guarded_witness :
    advanceUpdater 1 0 [0] = some 0
    ∧ advanceTimerScheduled true 1 = false
    ∧ rerollLoop 0 [0] = none :=
  single_image_advance_guarded 0 true [0] (by decide)

/-- C4: `mapSpeedToDuration` matches the spec formula
4000 − (speed/100)×(4000−600) everywhere, maps 0 to 4000 and 100 to 600,
and is monotonically decreasing on [0, 100]. -/
theorem mapSpeedToDuration_spec_holds :
    mapSpeedToDuration 0 = 4000
    ∧ mapSpeedToDuration 100 = 600
    ∧ (∀ s : ℚ, mapSpeedToDuration s = specDurationFormula s)
    ∧ (∀ s t : ℚ, 0 ≤ s → s < t → t ≤ 100 →
        mapSpeedToDuration t < mapSpeedToDuration s) := by
  refine ⟨by norm_num [mapSpeedToDuration],
    by norm_num [mapSpeedToDuration], ?_, ?_⟩
  · intro s
    simp [mapSpeedToDuration, specDurationFormula]
  · intro s t h0 hst h100
    simp only [mapSpeedToDuration]
    linarith

/-- Witness for `mapSpeedToDuration_spec_holds`: the duration strictly
decreases from speed 0 to speed 100. -/
theorem mapSpeedToDuration_spec_holds_witness :
    mapSpeedToDuration 100 < mapSpeedToDuration 0 :=
  mapSpeedToDuration_spec_holds.2.2.2 0 100 (by norm_num) (by norm_num)
    (by norm_num)

/-- C5: `mapDelayToMs` matches the spec formula
500 + (delay/100)×(6000−500) everywhere, maps 0 to 500 and 100 to 6000,
and is monotonically increasing on [0, 100]. -/
theorem mapDelayToMs_spec_holds :
    mapDelayToMs 0 = 500
    ∧ mapDelayToMs 100 = 6000
    ∧ (∀ d : ℚ, mapDelayToMs d = specDelayFormula d)
    ∧ (∀ d e : ℚ, 0 ≤ d → d < e → e ≤ 100 →
        mapDelayToMs d < mapDelayToMs e) := by
  refine ⟨by norm_num [mapDelayToMs], by norm_num [mapDelayToMs], ?_, ?_⟩
  · intro d
    simp [mapDelayToMs, specDelayFormula]
  · intro d e h0 hde h100
    simp only [mapDelayToMs]
    linarith

/-- Witness for `mapDelayToMs_spec_holds`: the delay strictly increases from
control value 0 to control value 100. -/
theorem mapDelayToMs_spec_holds_witness :
    mapDelayToMs 0 < mapDelayToMs 100 :=
  mapDelayToMs_spec_holds.2.2.2 0 100 (by norm_num) (by norm_num)
    (by norm_num)

/-- C6: within the slider range, the shade overlay is drawn exactly when the
intensity is positive, with alpha (shade/100)×0.65; the effective overlay
alpha is 0 at intensity 0 (no overlay drawn) and exactly 0.65 at 100. -/
theorem shade_overlay_alpha_spec (shade : ℚ) (h0 : 0 ≤ shade)
    (h100 : shade ≤ 100) :
    (0 < shade →
      shadeOverlayAlpha shade = some ((shade / 100) * (65 / 100)))
    ∧ (shade = 0 → shadeOverlayAlpha shade = none)
    ∧ effectiveShadeAlpha 0 = 0
    ∧ effectiveShadeAlpha 100 = 65 / 100 := by
  refine ⟨?_, ?_, ?_, ?_⟩
  · intro h
    simp [shadeOverlayAlpha, h]
  · intro h
    subst h
    simp [shadeOverlayAlpha]
  · simp [effectiveShadeAlpha, shadeOverlayAlpha]
  · norm_num [effectiveShadeAlpha, shadeOverlayAlpha]

/-- Witness for `shade_overlay_alpha_spec` at intensity 50. -/
theorem shade_overlay_alpha_spec_witness :
    shadeOverlayAlpha 50 = some ((50 / 100) * (65 / 100))
    ∧ effectiveShadeAlpha 100 = 65 / 100 := by
  have h := shade_overlay_alpha_spec 50 (by norm_num) (by norm_num)
  exact ⟨h.1 (by norm_num), h.2.2.2⟩

/-- C7: every state update preserves the index invariant — once the image
list is non-empty, `currentIndex` is a valid position in it — and an image
upload never changes `currentIndex`, so a batch upload cannot invalidate
it. -/
theorem currentIndex_invariant_preserved (s : PlayerState) (e : Event)
    (hv : eventValid e s) (hinv : playerInv s) :
    playerInv (step e s)
    ∧ ((step e s).images ≠ [] →
        (step e s).currentIndex < (step e s).images.length)
    ∧ (∀ files?, (step (Event.uploadImages files?) s).currentIndex
        = s.currentIndex) := by
  have hmain : playerInv (step e s) := by
    cases e with
    | uploadImages files? =>
      rcases handleImageUpload_currentIndex files? s with ⟨hidx, hlen⟩
      show playerInv (handleImageUpload files? s)
      unfold playerInv at hinv ⊢
      rw [hidx]
      omega
    | advanceTimer draws =>
      have hv' : ∀ d ∈ draws, d < s.images.length := hv
      simp only [step]
      by_cases hg : advanceTimerScheduled s.isPlaying s.images.length = true
      · rw [if_pos hg]
        cases hu : advanceUpdater s.images.length s.currentIndex draws with
        | none =>
          simp only [hu]
          exact hinv
        | some next =>
          simp only [hu]
          show next < max 1 s.images.length
          unfold advanceUpdater at hu
          by_cases hl : s.images.length ≤ 1
          · rw [if_pos hl] at hu
            cases hu
            exact hinv
          · rw [if_neg hl] at hu
            rcases rerollLoop_eq_some s.currentIndex draws next hu with
              ⟨hmem, _⟩
            have := hv' next hmem
            omega
      · rw [if_neg hg]
        exact hinv
    | togglePlay =>
      simp only [step]
      by_cases h0 : s.images.length = 0
      · rw [if_pos h0]
        exact hinv
      · rw [if_neg h0]
        exact hinv
    | setSpeed v => exact hinv
    | setDelay v => exact hinv
    | setShade v => exact hinv
    | setVolume v => exact hinv
  refine ⟨hmain, ?_, ?_⟩
  · intro hne
    have h1 : 0 < (step e s).images.length := List.length_pos.mpr hne
    unfold playerInv at hmain
    omega
  · intro files?
    exact (handleImageUpload_currentIndex files? s).1

/-- Witness for `currentIndex_invariant_preserved`: a slider event keeps the
invariant on the initial state, and a one-file upload leaves the index
unchanged. -/
theorem currentIndex_invariant_preserved_witness :
    playerInv (step (Event.setSpeed 10) initialState)
    ∧ (step (Event.uploadImages (some [⟨"a", true⟩]))
        initialState).currentIndex = initialState.currentIndex := by
  have h := currentIndex_invariant_preserved initialState (Event.setSpeed 10)
    trivial (by norm_num [playerInv, initialState])
  exact ⟨h.1, h.2.2 (some [⟨"a", true⟩])⟩

/-- C8 counterexample: a two-file batch in which the second file fails to
decode contributes no entry at all — in particular the successfully decoded
first file never becomes a visible entry, contradicting the claim that only
the failing file is excluded while the rest of the batch becomes visible. -/
theorem failed_decode_drops_batch_cex :
    (handleImageUpload (some [⟨"ok", true⟩, ⟨"bad", false⟩])
      initialState).images = []
    ∧ createEntry ⟨"ok", true⟩ ∉
        (handleImageUpload (some [⟨"ok", true⟩, ⟨"bad", false⟩])
          initialState).images := by
  have h1 : (handleImageUpload (some [⟨"ok", true⟩, ⟨"bad", false⟩])
      initialState).images = [] := rfl
  refine ⟨h1, ?_⟩
  rw [h1]
  exact List.not_mem_nil _

/-- C8 amended: if any file of the batch fails to decode, the completion
counter never reaches the batch size, so the commit never fires: the state
is unchanged and no file of the batch — the failing one or the successfully
decoded ones — contributes an entry to the visible list, with no error
surfaced; the batch is silently dropped in its entirety. -/
theorem failed_decode_drops_batch (files : List ImageFile) (s : PlayerState)
    (h : ∃ f ∈ files, f.decodesOk = false) :
    handleImageUpload (some files) s = s := by
  have hne : files ≠ [] := by
    rintro rfl
    rcases h with ⟨f, hf, _⟩
    simp at hf
  have hlt := filter_ok_lt (fun f => f.decodesOk) files h
  rw [handleImageUpload_some files s hne, if_neg (by omega)]

/-- Witness for `failed_decode_drops_batch` on a concrete mixed batch. -/
theorem failed_decode_drops_batch_witness :
    handleImageUpload (some [⟨"good", true⟩, ⟨"broken", false⟩])
      initialState = initialState :=
  failed_decode_drops_batch [⟨"good", true⟩, ⟨"broken", false⟩]
    initialState ⟨⟨"broken", false⟩, by decide, rfl⟩

/-- C9: when a non-empty batch in which every file decodes finishes
ingestion, playback is on afterwards: it is started if it was paused, and
it stays on if it was already playing. -/
theorem upload_autostarts_playback (files : List ImageFile)
    (s : PlayerState) (hne : files ≠ [])
    (hok : ∀ f ∈ files, f.decodesOk = true) :
    (s.isPlaying = false →
      (handleImageUpload (some files) s).isPlaying = true)
    ∧ (s.isPlaying = true →
      (handleImageUpload (some files) s).isPlaying = true) := by
  have hall : (files.filter (fun f => f.decodesOk)).length = files.length := by
    rw [filter_ok_all _ files hok]
  rw [handleImageUpload_some files s hne, if_pos hall]
  constructor
  · intro h
    simp [commitBatch, h]
  · intro h
    simp [commitBatch, h]

/-- Witness for `upload_autostarts_playback`: uploading one good file to the
paused initial state starts playback. -/
theorem upload_autostarts_playback_witness :
    (handleImageUpload (some [⟨"a", true⟩]) initialState).isPlaying
      = true := by
  have h := upload_autostarts_playback [⟨"a", true⟩] initialState
    (by decide) (by decide)
  exact h.1 rfl

/-- C10: invoking the upload handler with an absent or empty file selection
is a complete no-op: the whole state — image list, currentIndex, isPlaying
and all four slider values — is unchanged, and no entries or object URLs
are created. -/
theorem empty_upload_noop (s : PlayerState) :
    handleImageUpload none s = s
    ∧ handleImageUpload (some []) s = s
    ∧ uploadCreatedUrls none = []
    ∧ uploadCreatedUrls (some []) = []
    ∧ uploadNewEntries none = []
    ∧ uploadNewEntries (some []) = [] :=
  ⟨rfl, rfl, rfl, rfl, rfl, rfl⟩

/-- Witness for `empty_upload_noop` on the initial state. -/
theorem empty_upload_noop_witness :
    handleImageUpload none initialState = initialState
    ∧ handleImageUpload (some []) initialState = initialState :=
  ⟨(empty_upload_noop initialState).1, (empty_upload_noop initialState).2.1⟩
